import Mathlib

/-!
Formal model of the `recorder` package (irfansharif/recorder): a record/replay
library for (command, output) operations, persisted in a line-oriented text
grammar.  The definitions below are a shallow embedding of `recorder.go` and
`operation.go`; Go strings become Lean `String`, the mutable `scanner` becomes
an explicit `Scanner` state value, Go `error` results become the structured
`RecErr` type carrying the same data as the formatted Go messages, and the
mutable accumulation (`bytes.Buffer`, the scratch `operation`) becomes explicit
string/state threading.  The line scanner itself (`scanner.go`, wrapping
`bufio.Scanner`) is not part of the sources modelled from code; it is modelled
from the specification (section 4.1): `scan` yields one line at a time and
returns false at end of stream, `text` returns the current line with the
terminator stripped, and `pos` renders `name:lineNumber`.
-/

namespace Recorder

/-- Operation is the base unit of what can be recorded: a command and the
corresponding output (struct `operation` in the Go source, fields `command`
and `output`). -/
structure Operation where
  command : String
  output : String
  deriving DecidableEq, Repr

/-- Structured form of the Go `error` values produced by the recorder.  Each
constructor corresponds to one `errors.New`/`fmt.Errorf` site in the source
and carries the data interpolated into the Go message (the rendered scanner
position, and the offending strings).  `wrapped` models the
`fmt.Errorf("%s: %w", pos, err)` wrapping done by `step` around a visitor
error; `external` stands for an opaque caller-supplied error returned by the
`produce` callback of `Next`. -/
inductive RecErr where
  | cannotParseCommand (p : String) (col : Nat) (line : String)
  | expectedSeparator (p : String)
  | expectedSeparatorFound (p : String) (found : String)
  | nonBlankAfterClose (p : String)
  | missingClosing (p : String)
  | misconfiguredNotSetToRecord
  | misconfiguredSetToRecord
  | mismatch (p : String) (expected got : String)
  | notFound (p : String) (command : String)
  | wrapped (p : String) (e : RecErr)
  | external (msg : String)
  deriving DecidableEq, Repr

/-- Whitespace test used by Go's `strings.TrimSpace` (`unicode.IsSpace`),
restricted to the characters that can occur in the recordings this model
ranges over (ASCII controls plus the two Latin-1 space characters). -/
def goIsSpace (c : Char) : Bool :=
  c = ' ' || c = '\t' || c = '\n' || c = (Char.ofNat 11) || c = (Char.ofNat 12) ||
    c = '\r' || c = (Char.ofNat 0x85) || c = (Char.ofNat 0xA0)

/-- Go `strings.TrimSpace`: drop leading and trailing whitespace. -/
def goTrimSpace (s : String) : String :=
  ⟨((s.data.dropWhile goIsSpace).reverse.dropWhile goIsSpace).reverse⟩

/-- Go `strings.HasPrefix(line, "#")` for the one-character prefix used when
skipping comment lines. -/
def startsWithHash (s : String) : Bool :=
  s.data.head? = some '#'

/-- Go `strings.HasSuffix(line, "\\")` for the one-character line-continuation
marker. -/
def endsWithBackslash (s : String) : Bool :=
  s.data.getLast? = some '\\'

/-- Go `strings.HasSuffix(o.Output, "\n")`. -/
def endsWithNewline (s : String) : Bool :=
  s.data.getLast? = some '\n'

/-- Go `strings.TrimSuffix(line, "\\")` in the branch where the suffix is known
to be present: drop the final character. -/
def dropLastChar (s : String) : String :=
  ⟨s.data.dropLast⟩

/-- Go `strings.TrimRight(o.Output, "\n")`: drop every trailing newline. -/
def trimTrailingNewlines (cs : List Char) : List Char :=
  (cs.reverse.dropWhile (· = '\n')).reverse

/-- Go `strings.Split(s, "\n")` at the character-list level: `splitNL cs` is
the list of `"\n"`-separated chunks of `cs` (always non-empty, `[[]]` for the
empty string, a trailing separator yielding a trailing empty chunk). -/
def splitNL : List Char → List (List Char)
  | [] => [[]]
  | c :: rest =>
    if c = '\n' then [] :: splitNL rest
    else
      match splitNL rest with
      | [] => [[c]]
      | l :: ls => (c :: l) :: ls

/-- The blank-line scan in `Operation.String`: after Go's
`strings.TrimRight(o.Output, "\n")`, does any `strings.Split(_, "\n")` chunk
equal the empty string?  This is the serializer's trigger for the escaped
double-separator form. -/
def goEmptyLine (out : String) : Bool :=
  (splitNL (trimTrailingNewlines out.data)).any (fun l => l.isEmpty)

/-- The printable form of an Operation (`Operation.String` in the Go source):
command line, separator, optionally the opening extra separator, the output
body (newline-terminated if it was not), optionally the closing separator
pair, and a trailing blank line. -/
def OperationString (o : Operation) : String :=
  let sb := o.command ++ "\n" ++ "----" ++ "\n"
  let emptyLine := goEmptyLine o.output
  let sb := if emptyLine then sb ++ "----" ++ "\n" else sb
  let sb := sb ++ o.output
  let sb := if o.output ≠ "" ∧ endsWithNewline o.output = false then sb ++ "\n" else sb
  let sb := if emptyLine then sb ++ "----" ++ "\n" ++ "----" ++ "\n" else sb
  sb ++ "\n"

/-- Modelled from the spec: the line scanner of `scanner.go` is not among the
modelled sources.  Following section 4.1, a scanner is a diagnostic `name`,
the list of lines not yet consumed (`rest`), the number of lines consumed so
far (`line`, the current line number), and the text of the line most recently
consumed (`cur`; the empty string after a failed scan, matching
`bufio.Scanner.Text` after `Scan` returns false). -/
structure Scanner where
  name : String
  rest : List String
  line : Nat
  cur : String
  deriving DecidableEq, Repr

/-- Modelled from the spec: `pos` renders the diagnostic position
`name:lineNumber` (section 3, Scanner position). -/
def posStr (name : String) (line : Nat) : String :=
  name ++ ":" ++ toString line

/-- Position of a scanner state, `r.scanner.pos()` in the Go source. -/
def pos (s : Scanner) : String :=
  posStr s.name s.line

/-- Modelled from the spec: splitting a byte stream into lines, as the
`bufio.Scanner` inside `scanner.go` does (one line per `\n`; the terminator is
stripped; a final fragment without a terminator is still a line; carriage
returns do not occur in the recordings modelled here). -/
def linesOf : List Char → List (List Char)
  | [] => []
  | c :: cs =>
    if c = '\n' then [] :: linesOf cs
    else
      match linesOf cs with
      | [] => [[c]]
      | l :: ls => (c :: l) :: ls

/-- The lines of a recording text, as the scanner would yield them. -/
def toLines (s : String) : List String :=
  (linesOf s.data).map String.mk

/-- Modelled from the spec: the scanner over a full recording text, before the
first `scan` (line number 0, no current line), as built by `WithReplay`. -/
def mkScanner (name : String) (text : String) : Scanner :=
  ⟨name, toLines text, 0, ""⟩

/-- Result of `Recorder.parseOperation`: either a fatal error, or `none` when
the stream is exhausted before any operation (`parsed = false` in Go), or the
parsed operation together with the scanner state left behind.  (On the error
side the Go scanner has also advanced, but every caller stops at the first
error, so the post-error scanner state is not modelled.) -/
inductive ParseRes where
  | ok (op : Option Operation) (s : Scanner)
  | err (e : RecErr)
  deriving DecidableEq, Repr

/-- Result of `Recorder.parseOutput` and of its escaped-output loop: the
accumulated output string and the scanner state, or a fatal grammar error. -/
inductive OutputRes where
  | ok (r : String × Scanner)
  | err (e : RecErr)
  deriving DecidableEq, Repr

/-- `Recorder.parseCommand`: trim the line; an empty result means "nothing to
do" (blank line, skipped by the caller); otherwise the trimmed text is the
command.  The error branch is kept from the source although it cannot fire
(the line is already non-empty after trimming); Go computes the column from
byte lengths there, which is 1 since `origLine` equals `line`. -/
def parseCommand (p : String) (line : String) : RecErr ⊕ String :=
  let line1 := goTrimSpace line
  if line1 = "" then .inr ""
  else
    let cmd := goTrimSpace line1
    if cmd = "" then .inl (.cannotParseCommand p (line1.length - line1.length + 1) line1)
    else .inr cmd

/-- `Recorder.parseSeparator` over a scanner positioned at `rest` with `i`
lines consumed: scan one line, which must be exactly `----`; end of stream or
any other line is a grammar error carrying the scanner position.  Returns the
error (if any) together with the scanner state after the attempt, since on a
failed attempt inside the escaped-output loop the caller reuses the consumed
line (`r.scanner.Text()`). -/
def parseSeparator (n : String) (i : Nat) : List String → Option RecErr × Scanner
  | [] => (some (.expectedSeparator (posStr n i)), ⟨n, [], i, ""⟩)
  | l :: rest =>
    if l = "----" then (none, ⟨n, rest, i + 1, l⟩)
    else (some (.expectedSeparatorFound (posStr n (i + 1)) l), ⟨n, rest, i + 1, l⟩)

/-- The plain-output loop of `Recorder.parseOutput` (the `!allowBlankLines`
branch): starting from the already-scanned current line `line`, accumulate
`line + "\n"` onto `buf` until a line trims to blank (consumed, not
accumulated) or the stream ends.  Never fails.  Returns the output and the
scanner state. -/
def plainLoop (n : String) (i : Nat) (line : String) (buf : String) :
    List String → String × Scanner
  | [] =>
    if goTrimSpace line = "" then (buf, ⟨n, [], i, line⟩)
    else (buf ++ line ++ "\n", ⟨n, [], i, ""⟩)
  | l :: rest =>
    if goTrimSpace line = "" then (buf, ⟨n, l :: rest, i, line⟩)
    else plainLoop n (i + 1) l (buf ++ line ++ "\n") rest

/-- The escaped-output loop of `Recorder.parseOutput` (the `allowBlankLines`
branch), with the inner `parseSeparator` attempt and the scans inlined so the
recursion is structural: a non-`----` line is accumulated; a `----` line is a
closing marker only when immediately followed by a second `----` (otherwise
both lines are accumulated and scanning continues); after a closing pair the
next line, if any, must be blank; end of stream before a closing pair is the
"missing closing double ---- separators" error. -/
def escLoop (n : String) (i : Nat) (buf : String) : List String → OutputRes
  | [] => .err (.missingClosing (posStr n i))
  | l :: rest =>
    if l = "----" then
      match rest with
      | [] =>
        -- the separator attempt hits end of stream; the lone `----` (and the
        -- empty post-scan text) are folded into the buffer, and the next
        -- loop iteration immediately fails at end of stream
        .err (.missingClosing (posStr n (i + 1)))
      | l2 :: rest2 =>
        if l2 = "----" then
          match rest2 with
          | [] => .ok (buf, ⟨n, [], i + 2, ""⟩)
          | t :: rest3 =>
            if t = "" then .ok (buf, ⟨n, rest3, i + 3, t⟩)
            else .err (.nonBlankAfterClose (posStr n (i + 3)))
        else escLoop n (i + 2) (buf ++ l ++ "\n" ++ l2 ++ "\n") rest2
    else escLoop n (i + 1) (buf ++ l ++ "\n") rest

/-- `Recorder.parseOutput`: peek one line; exactly `----` switches to the
escaped (blank-line-permitting) form, anything else (or end of stream, where
the Go local `line` keeps its zero value `""`) falls into the plain form
starting from that line. -/
def parseOutput (n : String) (i : Nat) : List String → OutputRes
  | [] => .ok (plainLoop n i "" "" [])
  | l :: rest =>
    if l = "----" then escLoop n (i + 1) "" rest
    else .ok (plainLoop n (i + 1) l "" rest)

/-- The command-wrapping loop of `Recorder.parseOperation`: while the current
line ends in a backslash and another line can be scanned, drop the backslash,
trim, and join with the trimmed next line using a single space. -/
def joinContinuation (i : Nat) (line : String) : List String → String × Nat × List String
  | [] => (line, i, [])
  | nl :: rest =>
    if endsWithBackslash line then
      joinContinuation (i + 1) (goTrimSpace (dropLastChar line) ++ " " ++ goTrimSpace nl) rest
    else (line, i, nl :: rest)

/-- `Recorder.parseOperation`, fuelled: the outer scan loop skips comment
lines and blank lines, joins wrapped command lines, then requires a separator
and an output block.  The loop is not structurally recursive (the
continuation join may consume lines before the command trims to blank), so the
recursion is on an explicit fuel; each iteration consumes at least one line,
so any fuel exceeding the number of lines is never exhausted (see
`parseOperation`, which supplies `rest.length + 1`). -/
def parseOperationF (n : String) : Nat → Nat → List String → ParseRes
  | 0, i, rest => .ok none ⟨n, rest, i, ""⟩
  | _ + 1, i, [] => .ok none ⟨n, [], i, ""⟩
  | fuel + 1, i, l :: rest =>
    let line := goTrimSpace l
    if startsWithHash line then parseOperationF n fuel (i + 1) rest
    else
      match joinContinuation (i + 1) line rest with
      | (line2, j, rest2) =>
        match parseCommand (posStr n j) line2 with
        | .inl e => .err e
        | .inr command =>
          if command = "" then parseOperationF n fuel j rest2
          else
            match parseSeparator n j rest2 with
            | (some e, _) => .err e
            | (none, s3) =>
              match parseOutput n s3.line s3.rest with
              | .err e => .err e
              | .ok (out, s4) => .ok (some ⟨command, out⟩) s4

/-- `Recorder.parseOperation` over a scanner with name `n`, `i` lines already
consumed and `rest` still to read. -/
def parseOperation (n : String) (i : Nat) (rest : List String) : ParseRes :=
  parseOperationF n (rest.length + 1) i rest

/-- A configured Recorder: either recording into a sink (the `writer` field is
set; the sink's accumulated contents stand for the `io.Writer`) or replaying
from a scanner (the `scanner` field is set).  `New` always sets exactly one of
the two, so the configured states form this sum; the nil pointer used for the
passthrough mode is `Option.none` at the `Next` call site below. -/
inductive RecorderState where
  | recorder (sink : String)
  | replayer (sc : Scanner)
  deriving DecidableEq, Repr

/-- `Recorder.recording`: whether the recorder is configured to record,
`r.writer != nil` in Go. -/
def recording : RecorderState → Bool
  | .recorder _ => true
  | .replayer _ => false

/-- `Recorder.record`: in recording mode append the operation's printable form
to the sink; otherwise the misconfiguration error.  (`bytes.Buffer` writes
cannot fail, so the write-error path of the Go source has no inhabitant
here.) -/
def record (rs : RecorderState) (op : Operation) : Option RecErr × RecorderState :=
  match rs with
  | .replayer sc => (some .misconfiguredNotSetToRecord, .replayer sc)
  | .recorder w => (none, .recorder (w ++ OperationString op))

/-- The position of the recorder's scanner, `r.scanner.pos()`; only read in
replay mode (in recording mode the Go scanner is nil and the expression is
never evaluated). -/
def scannerPos : RecorderState → String
  | .recorder _ => ""
  | .replayer sc => pos sc

/-- `Recorder.step`: replay-only.  In recording mode, the misconfiguration
error.  Otherwise parse the next operation; a parse error propagates, an
exhausted stream is `found = false` with no error, and on success the visitor
`f` runs on the operation.  The Go visitor is a closure over the caller's
locals and the recorder's scanner; here it explicitly receives the scanner
position (what the closure reads via `r.scanner.pos()`) and threads a state
`σ` (the closure's captured locals).  A visitor error is wrapped with the
position, as `fmt.Errorf("%s: %w", r.scanner.pos(), err)` does. -/
def step {σ : Type} (rs : RecorderState) (f : Operation → String → σ → Option RecErr × σ)
    (st : σ) : ((Bool × Option RecErr) × σ) × RecorderState :=
  match rs with
  | .recorder w => (((false, some .misconfiguredSetToRecord), st), .recorder w)
  | .replayer sc =>
    match parseOperation sc.name sc.line sc.rest with
    | .err e => (((false, some e), st), .replayer sc)
    | .ok none sc2 => (((false, none), st), .replayer sc2)
    | .ok (some op) sc2 =>
      match f op (pos sc2) st with
      | (some ferr, st2) => (((false, some (.wrapped (pos sc2) ferr)), st2), .replayer sc2)
      | (none, st2) => (((true, none), st2), .replayer sc2)

/-- `Recorder.Next`: the mode dispatch.  A nil recorder (`none`) transparently
runs the callback.  In recording mode the callback runs; its error passes
through with an empty output, otherwise the operation is recorded and the
output returned.  In replay mode the next operation is parsed via `step` with
the comparing closure; command mismatch produces the two-command error, an
exhausted recording the not-found error, and otherwise the stored output is
returned. -/
def Next (r : Option RecorderState) (command : String)
    (f : Unit → String × Option RecErr) :
    (String × Option RecErr) × Option RecorderState :=
  match r with
  | none =>
    let (output, err) := f ()
    ((output, err), none)
  | some rs =>
    if recording rs then
      let (output, err) := f ()
      match err with
      | some e => (("", some e), some rs)
      | none =>
        match record rs ⟨command, output⟩ with
        | (some e, rs2) => (("", some e), some rs2)
        | (none, rs2) => ((output, none), some rs2)
    else
      match step rs (fun op p out =>
          if op.command ≠ command then (some (.mismatch p op.command command), out)
          else (none, op.output)) "" with
      | (((found, err), output), rs2) =>
        match err with
        | some e => (("", some e), some rs2)
        | none =>
          if found then ((output, none), some rs2)
          else (("", some (.notFound (scannerPos rs2) command)), some rs2)

/-- The concatenation of a list of lines, each terminated by a newline: the
normal form of parsed outputs (`fmt.Fprintln` appends one line at a time). -/
def joinNL : List String → String
  | [] => ""
  | l :: ls => l ++ "\n" ++ joinNL ls

/-- Commands that the grammar writes and reads back unchanged: non-empty,
already trimmed, single-line, not a comment, and without the
line-continuation marker. -/
def GoodCommand (c : String) : Prop :=
  goTrimSpace c = c ∧ c ≠ "" ∧ startsWithHash c = false ∧
    endsWithBackslash c = false ∧ '\n' ∉ c.data

/-- Outputs that the grammar writes and reads back unchanged: empty, or a
concatenation of newline-terminated lines, none of which is the separator
`----`, and — when the serializer picks the plain form because no line
survives the trailing-newline strip as blank — none of which is blank after
trimming (the plain parser stops at the first blank line). -/
def GoodOutput (out : String) : Prop :=
  out = joinNL (toLines out) ∧ (∀ l ∈ toLines out, l ≠ "----") ∧
    (goEmptyLine out = false → ∀ l ∈ toLines out, goTrimSpace l ≠ "")

/-- Operations within the round-trippable core of the grammar. -/
def GoodOp (op : Operation) : Prop :=
  GoodCommand op.command ∧ GoodOutput op.output

instance (c : String) : Decidable (GoodCommand c) := by
  unfold GoodCommand; infer_instance

instance (out : String) : Decidable (GoodOutput out) := by
  unfold GoodOutput; infer_instance

instance (op : Operation) : Decidable (GoodOp op) := by
  unfold GoodOp; infer_instance

/-- The serialized form of an operation, as the list of lines the scanner
yields back from it: command, separator, the optional escape marker, the
output's lines, the optional closing pair, and the trailing blank line. -/
def serLines (op : Operation) : List String :=
  [op.command, "----"] ++ (if goEmptyLine op.output then ["----"] else []) ++
    toLines op.output ++
    (if goEmptyLine op.output then ["----", "----"] else []) ++ [""]

/-- A line of `s` (as the scanner would split it) that is blank in the
grammar's sense: it trims to the empty string. -/
def hasBlankLine (s : String) : Bool :=
  (toLines s).any (fun l => goTrimSpace l = "")

/-- Following the claim's words for the escape condition: strip exactly one
trailing newline. -/
def stripOneNewline (cs : List Char) : List Char :=
  if cs.getLast? = some '\n' then cs.dropLast else cs

/-- Following the claim's words: the escaped form is required iff some line of
the output, after stripping exactly one trailing newline, is empty. -/
def specNeedsEscapeOneStrip (out : String) : Bool :=
  (splitNL (stripOneNewline out.data)).any (fun l => l.isEmpty)

/-- Following the amended claim: the escaped form is required iff some line of
the output, after stripping all trailing newlines, is empty. -/
def specNeedsEscapeAllStrip (out : String) : Bool :=
  (splitNL (trimTrailingNewlines out.data)).any (fun l => l.isEmpty)

/-- The plain serialized form as the spec describes it (section 4.2,
serialization rules 1, 4, 5): command, separator, output body
(newline-terminated if non-empty and not already), trailing blank line. -/
def specPlainForm (cmd out : String) : String :=
  cmd ++ "\n" ++ "----" ++ "\n" ++ out ++
    (if out ≠ "" ∧ endsWithNewline out = false then "\n" else "") ++ "\n"

/-- The escaped serialized form as the spec describes it (section 4.2,
serialization rules 1, 3, 4, 5): an extra separator before the body and a
closing separator pair after it. -/
def specEscapedForm (cmd out : String) : String :=
  cmd ++ "\n" ++ "----" ++ "\n" ++ "----" ++ "\n" ++ out ++
    (if out ≠ "" ∧ endsWithNewline out = false then "\n" else "") ++
    "----" ++ "\n" ++ "----" ++ "\n" ++ "\n"

/-- A recording of several operations back-to-back: the concatenation of
their printable forms, as repeated `record` calls produce on the sink. -/
def serializeAll : List Operation → String
  | [] => ""
  | op :: t => OperationString op ++ serializeAll t

/-- The line sequence of a multi-operation recording. -/
def serLinesAll : List Operation → List String
  | [] => []
  | op :: t => serLines op ++ serLinesAll t

/-- Driver running `step` repeatedly with a collecting visitor (as the Go
round-trip test loop does), accumulating every operation seen, until a step
reports found = false or an error, or the fuel runs out. -/
def stepAll : Nat → RecorderState → List Operation →
    List Operation × (Bool × Option RecErr) × RecorderState
  | 0, rs, acc => (acc, (true, none), rs)
  | fuel + 1, rs, acc =>
    match step rs (fun op _ a => (none, a ++ [op])) acc with
    | (((found, err), acc2), rs2) =>
      if found = true ∧ err = none then stepAll fuel rs2 acc2
      else (acc2, (found, err), rs2)

theorem strext {s t : String} (h : s.data = t.data) : s = t := by
  cases s; cases t; exact congrArg String.mk h

theorem joinNL_data (l : String) (L : List String) :
    (joinNL (l :: L)).data = l.data ++ '\n' :: (joinNL L).data := by
  simp [joinNL, String.data_append]

theorem joinNL_data_ne (l : String) (L : List String) :
    (joinNL (l :: L)).data ≠ [] := by
  simp [joinNL_data]

theorem joinNL_getLast (L : List String) :
    joinNL L = "" ∨ (joinNL L).data.getLast? = some '\n' := by
  induction L with
  | nil => exact Or.inl rfl
  | cons l L ih =>
    refine Or.inr ?_
    rw [joinNL_data]
    rcases ih with h | h
    · have hnil : (joinNL L).data = [] := by rw [h]
      rw [hnil]
      simp
    · rw [List.getLast?_append_of_ne_nil _ (by simp : '\n' :: (joinNL L).data ≠ [])]
      rcases hd : (joinNL L).data with _ | ⟨c, cs⟩
      · rw [hd] at h; simp at h
      · rw [List.getLast?_cons_cons, ← hd]
        exact h

theorem linesOf_append_cons (l : List Char) (rest : List Char) (h : '\n' ∉ l) :
    linesOf (l ++ '\n' :: rest) = l :: linesOf rest := by
  induction l with
  | nil => simp [linesOf]
  | cons c l ih =>
    have hc : ¬ c = '\n' := by intro hc; exact h (by simp [hc])
    have ih2 := ih (by intro hm; exact h (List.mem_cons_of_mem _ hm))
    simp only [List.cons_append, linesOf, if_neg hc]
    rw [show (l.append ('\n' :: rest)) = l ++ '\n' :: rest from rfl, ih2]

theorem linesOf_noNL : ∀ (cs : List Char) (l : List Char), l ∈ linesOf cs → '\n' ∉ l := by
  intro cs
  induction cs with
  | nil => intro l hl; simp [linesOf] at hl
  | cons c cs ih =>
    intro l hl
    by_cases hc : c = '\n'
    · have he : linesOf (c :: cs) = [] :: linesOf cs := by simp [linesOf, hc]
      rw [he] at hl
      rcases List.mem_cons.mp hl with hl | hl
      · subst hl; simp
      · exact ih l hl
    · rcases hsplit : linesOf cs with _ | ⟨l₀, ls⟩
      · have he : linesOf (c :: cs) = [[c]] := by simp [linesOf, hc, hsplit]
        rw [he, List.mem_singleton] at hl
        subst hl
        intro hm
        rw [List.mem_singleton] at hm
        exact hc hm.symm
      · have he : linesOf (c :: cs) = (c :: l₀) :: ls := by simp [linesOf, hc, hsplit]
        rw [he] at hl
        rcases List.mem_cons.mp hl with hl | hl
        · subst hl
          intro hm
          rcases List.mem_cons.mp hm with hm | hm
          · exact hc hm.symm
          · exact ih l₀ (hsplit ▸ List.mem_cons_self _ _) hm
        · exact ih l (hsplit ▸ List.mem_cons_of_mem _ hl)

theorem linesOf_joinNL (L : List String) (hL : ∀ l ∈ L, '\n' ∉ l.data)
    (rest : List Char) :
    linesOf ((joinNL L).data ++ rest) = L.map String.data ++ linesOf rest := by
  induction L with
  | nil => simp [joinNL]
  | cons l L ih =>
    have h1 : '\n' ∉ l.data := hL l (List.mem_cons_self _ _)
    have ih2 := ih (fun x hx => hL x (List.mem_cons_of_mem _ hx))
    rw [joinNL_data, List.append_assoc, List.cons_append,
      linesOf_append_cons _ _ h1, ih2]
    simp

theorem toLines_noNL (s : String) (l : String) (hl : l ∈ toLines s) :
    '\n' ∉ l.data := by
  rcases List.mem_map.mp hl with ⟨cs, hcs, hmk⟩
  have := linesOf_noNL s.data cs hcs
  rw [← hmk]
  exact this

theorem linesOf_str_cons (l : String) (hl : '\n' ∉ l.data) (s : String)
    (extra : List Char) :
    linesOf ((l ++ "\n" ++ s).data ++ extra) = l.data :: linesOf (s.data ++ extra) := by
  have h1 : (l ++ "\n" ++ s).data ++ extra = l.data ++ '\n' :: (s.data ++ extra) := by
    simp [String.data_append]
  rw [h1, linesOf_append_cons _ _ hl]

theorem linesOf_str_join (L : List String) (hL : ∀ l ∈ L, '\n' ∉ l.data)
    (s : String) (extra : List Char) :
    linesOf ((joinNL L ++ s).data ++ extra) =
      L.map String.data ++ linesOf (s.data ++ extra) := by
  have h1 : (joinNL L ++ s).data ++ extra = (joinNL L).data ++ (s.data ++ extra) := by
    simp [String.data_append]
  rw [h1, linesOf_joinNL L hL]

/-- The lines of a serialized operation, followed by any trailing text, are
exactly `serLines` followed by the lines of that text: `Operation.String`
emits precisely the grammar's line sequence. -/
theorem linesOf_OperationString (op : Operation) (h : GoodOp op) (extra : List Char) :
    linesOf ((OperationString op).data ++ extra) =
      (serLines op).map String.data ++ linesOf extra := by
  obtain ⟨hc, hgo⟩ := h
  obtain ⟨hout1, hsep, hplain⟩ := hgo
  have hcmdNL : '\n' ∉ op.command.data := hc.2.2.2.2
  have hLnoNL : ∀ l ∈ toLines op.output, '\n' ∉ l.data :=
    fun l hl => toLines_noNL _ l hl
  have hsepNL : '\n' ∉ ("----" : String).data := by decide
  have hcond : ¬(op.output ≠ "" ∧ endsWithNewline op.output = false) := by
    rcases joinNL_getLast (toLines op.output) with h0 | h0
    · intro hx; exact hx.1 (by rw [hout1, h0])
    · intro hx
      have hew : endsWithNewline op.output = true := by
        unfold endsWithNewline
        rw [hout1]
        exact decide_eq_true h0
      rw [hew] at hx
      simp at hx
  by_cases he : goEmptyLine op.output = true
  · have hOS : OperationString op =
        op.command ++ "\n" ++ ("----" ++ "\n" ++ ("----" ++ "\n" ++
          (joinNL (toLines op.output) ++
            ("----" ++ "\n" ++ ("----" ++ "\n" ++ "\n"))))) := by
      rw [OperationString]
      simp only [he, ite_true, if_neg hcond]
      rw [← hout1]
      simp only [String.append_assoc]
    rw [hOS, linesOf_str_cons _ hcmdNL, linesOf_str_cons _ hsepNL,
      linesOf_str_cons _ hsepNL, linesOf_str_join _ hLnoNL,
      linesOf_str_cons _ hsepNL, linesOf_str_cons _ hsepNL]
    have hfin : (("\n" : String).data ++ extra) = '\n' :: extra := rfl
    rw [hfin]
    simp [serLines, he, linesOf]
  · have hOS : OperationString op =
        op.command ++ "\n" ++ ("----" ++ "\n" ++
          (joinNL (toLines op.output) ++ "\n")) := by
      rw [OperationString]
      simp only [if_neg he, if_neg hcond]
      rw [← hout1]
      simp only [String.append_assoc]
    rw [hOS, linesOf_str_cons _ hcmdNL, linesOf_str_cons _ hsepNL,
      linesOf_str_join _ hLnoNL]
    have hfin : (("\n" : String).data ++ extra) = '\n' :: extra := rfl
    rw [hfin]
    simp [serLines, he, linesOf]

theorem escLoop_nil (n : String) (i : Nat) (buf : String) :
    escLoop n i buf [] = .err (.missingClosing (posStr n i)) := by
  rw [escLoop.eq_def]

theorem escLoop_cons_ne (n : String) (i : Nat) (buf x : String) (rest : List String)
    (hx : ¬ x = "----") :
    escLoop n i buf (x :: rest) = escLoop n (i + 1) (buf ++ x ++ "\n") rest := by
  rw [escLoop.eq_def]
  simp [hx]

theorem escLoop_sep_nil (n : String) (i : Nat) (buf : String) :
    escLoop n i buf ["----"] = .err (.missingClosing (posStr n (i + 1))) := by
  rw [escLoop.eq_def]
  simp

theorem escLoop_close_nil (n : String) (i : Nat) (buf : String) :
    escLoop n i buf ["----", "----"] = .ok (buf, ⟨n, [], i + 2, ""⟩) := by
  rw [escLoop.eq_def]
  simp

theorem escLoop_close_blank (n : String) (i : Nat) (buf : String) (rest : List String) :
    escLoop n i buf ("----" :: "----" :: "" :: rest) = .ok (buf, ⟨n, rest, i + 3, ""⟩) := by
  rw [escLoop.eq_def]
  simp

theorem escLoop_close_nonblank (n : String) (i : Nat) (buf t : String)
    (rest : List String) (ht : ¬ t = "") :
    escLoop n i buf ("----" :: "----" :: t :: rest) =
      .err (.nonBlankAfterClose (posStr n (i + 3))) := by
  rw [escLoop.eq_def]
  simp [ht]

theorem escLoop_fold (n : String) (i : Nat) (buf l2 : String) (rest : List String)
    (h2 : ¬ l2 = "----") :
    escLoop n i buf ("----" :: l2 :: rest) =
      escLoop n (i + 2) (buf ++ "----" ++ "\n" ++ l2 ++ "\n") rest := by
  rw [escLoop.eq_def]
  simp [h2]

theorem plainLoop_run (L : List String) : ∀ (n : String) (i : Nat) (l buf : String)
    (more : List String), goTrimSpace l ≠ "" → (∀ x ∈ L, goTrimSpace x ≠ "") →
    ∃ j, plainLoop n i l buf (L ++ "" :: more) =
      (buf ++ joinNL (l :: L), ⟨n, more, j, ""⟩) := by
  induction L with
  | nil =>
    intro n i l buf more hl _
    refine ⟨i + 1, ?_⟩
    have hz : goTrimSpace "" = "" := rfl
    cases more with
    | nil => simp [plainLoop, if_neg hl, hz, joinNL, String.append_assoc]
    | cons m ms => simp [plainLoop, if_neg hl, hz, joinNL, String.append_assoc]
  | cons x L ih =>
    intro n i l buf more hl hL
    have hx : goTrimSpace x ≠ "" := hL x (List.mem_cons_self _ _)
    have hL2 : ∀ y ∈ L, goTrimSpace y ≠ "" := fun y hy => hL y (List.mem_cons_of_mem _ hy)
    obtain ⟨j, hj⟩ := ih n (i + 1) x (buf ++ l ++ "\n") more hx hL2
    refine ⟨j, ?_⟩
    rw [List.cons_append]
    rw [show plainLoop n i l buf (x :: (L ++ "" :: more)) =
      plainLoop n (i + 1) x (buf ++ l ++ "\n") (L ++ "" :: more) from by
        simp [plainLoop, if_neg hl]]
    rw [hj]
    simp [joinNL, String.append_assoc]

theorem escLoop_run (L : List String) : ∀ (n : String) (i : Nat) (buf : String)
    (more : List String), (∀ x ∈ L, x ≠ "----") →
    ∃ j, escLoop n i buf (L ++ "----" :: "----" :: "" :: more) =
      .ok (buf ++ joinNL L, ⟨n, more, j, ""⟩) := by
  induction L with
  | nil =>
    intro n i buf more _
    refine ⟨i + 3, ?_⟩
    rw [List.nil_append, escLoop_close_blank]
    simp [joinNL]
  | cons x L ih =>
    intro n i buf more hL
    have hx : ¬ x = "----" := hL x (List.mem_cons_self _ _)
    have hL2 : ∀ y ∈ L, y ≠ "----" := fun y hy => hL y (List.mem_cons_of_mem _ hy)
    obtain ⟨j, hj⟩ := ih n (i + 1) (buf ++ x ++ "\n") more hL2
    refine ⟨j, ?_⟩
    rw [List.cons_append, escLoop_cons_ne n i buf x _ hx, hj]
    simp [joinNL, String.append_assoc]

/-- Stepping the operation parser over a well-formed command line followed by
the separator: the front matter of every serialized operation.  The command is
already trimmed, non-empty, not a comment and not backslash-continued, so the
parser commits to it, consumes the separator, and hands over to
`parseOutput`. -/
theorem parseOperationF_front (n : String) (fuel i : Nat) (cmd : String)
    (hct : goTrimSpace cmd = cmd) (hcne : cmd ≠ "") (hchash : startsWithHash cmd = false)
    (hcbs : endsWithBackslash cmd = false) (TAIL : List String) :
    parseOperationF n (fuel + 1) i (cmd :: "----" :: TAIL) =
      match parseOutput n (i + 2) TAIL with
      | .err e => .err e
      | .ok (out, s4) => .ok (some ⟨cmd, out⟩) s4 := by
  rw [parseOperationF.eq_def]
  simp only [hct, hchash, Bool.false_eq_true, if_false]
  rw [joinContinuation.eq_def]
  simp only [hcbs, Bool.false_eq_true, if_false]
  rw [parseCommand.eq_def]
  simp only [hct, if_neg hcne]
  rw [parseSeparator.eq_def]
  simp [hcne, parseOutput]

/-- Parsing the serialized lines of a good operation, followed by any further
lines, succeeds, reproduces the operation exactly, and leaves the further
lines unconsumed. -/
theorem parse_serLines (op : Operation) (h : GoodOp op) (n : String) (i : Nat)
    (more : List String) :
    ∃ j, parseOperation n i (serLines op ++ more) =
      .ok (some op) ⟨n, more, j, ""⟩ := by
  obtain ⟨hc, hgo⟩ := h
  obtain ⟨hout1, hsep, hplain⟩ := hgo
  obtain ⟨hct, hcne, hchash, hcbs, _⟩ := hc
  by_cases he : goEmptyLine op.output = true
  · have hlist : serLines op ++ more =
        op.command :: "----" :: "----" ::
          (toLines op.output ++ "----" :: "----" :: "" :: more) := by
      simp [serLines, he]
    obtain ⟨j, hj⟩ := escLoop_run (toLines op.output) n (i + 3) "" more hsep
    refine ⟨j, ?_⟩
    rw [parseOperation, hlist,
      parseOperationF_front n _ i op.command hct hcne hchash hcbs]
    have hpo : parseOutput n (i + 2)
        ("----" :: (toLines op.output ++ "----" :: "----" :: "" :: more)) =
        escLoop n (i + 3) "" (toLines op.output ++ "----" :: "----" :: "" :: more) := by
      simp [parseOutput]
    rw [hpo, hj]
    have hout2 : ("" : String) ++ joinNL (toLines op.output) = op.output := by
      rw [String.empty_append, ← hout1]
    simp [hout2]
  · have he2 : goEmptyLine op.output = false := by
      rcases Bool.eq_false_or_eq_true (goEmptyLine op.output) with h0 | h0
      · exact absurd h0 he
      · exact h0
    have hne : toLines op.output ≠ [] := by
      intro h0
      rw [h0] at hout1
      simp only [joinNL] at hout1
      rw [hout1] at he2
      exact absurd he2 (by decide)
    obtain ⟨l₀, L', hLL⟩ := List.exists_cons_of_ne_nil hne
    have hplain2 := hplain he2
    have hl₀t : goTrimSpace l₀ ≠ "" :=
      hplain2 l₀ (by rw [hLL]; exact List.mem_cons_self _ _)
    have hLt : ∀ x ∈ L', goTrimSpace x ≠ "" :=
      fun x hx => hplain2 x (by rw [hLL]; exact List.mem_cons_of_mem _ hx)
    have hl₀s : ¬ l₀ = "----" :=
      hsep l₀ (by rw [hLL]; exact List.mem_cons_self _ _)
    have hlist : serLines op ++ more =
        op.command :: "----" :: l₀ :: (L' ++ "" :: more) := by
      simp [serLines, he2, hLL]
    obtain ⟨j, hj⟩ := plainLoop_run L' n (i + 3) l₀ "" more hl₀t hLt
    refine ⟨j, ?_⟩
    rw [parseOperation, hlist,
      parseOperationF_front n _ i op.command hct hcne hchash hcbs]
    have hpo : parseOutput n (i + 2) (l₀ :: (L' ++ "" :: more)) =
        .ok (plainLoop n (i + 3) l₀ "" (L' ++ "" :: more)) := by
      simp [parseOutput, hl₀s]
    rw [hpo, hj]
    have hout2 : ("" : String) ++ joinNL (l₀ :: L') = op.output := by
      rw [String.empty_append, ← hLL, ← hout1]
    simp [hout2]

/-- The scanner splits a serialized good operation into exactly its grammar
lines. -/
theorem toLines_OperationString (op : Operation) (h : GoodOp op) :
    toLines (OperationString op) = serLines op := by
  have h1 := linesOf_OperationString op h []
  rw [List.append_nil] at h1
  have h2 : linesOf ([] : List Char) = [] := rfl
  rw [h2, List.append_nil] at h1
  rw [toLines, h1, List.map_map]
  have h3 : (String.mk ∘ String.data) = id := funext fun s => by cases s; rfl
  rw [h3, List.map_id]

/-- C1, as stated, is false on the code: the serializer appends a newline to a
non-newline-terminated output, so `{c, "a"}` and `{c, "a\n"}` serialize to the
same text and cannot both be reproduced by the parser.  The claim quantified
over an arbitrary output string is refuted. -/
theorem C1_roundTrip_counterexample :
    ¬ (∀ op : Operation, op.command ≠ "" →
      ∃ sc, parseOperation "recording" 0 (toLines (OperationString op)) =
        .ok (some op) sc) := by
  intro H
  obtain ⟨s1, h1⟩ := H ⟨"c", "a"⟩ (by decide)
  obtain ⟨s2, h2⟩ := H ⟨"c", "a\n"⟩ (by decide)
  have he : OperationString ⟨"c", "a"⟩ = OperationString ⟨"c", "a\n"⟩ := by decide
  rw [he] at h1
  rw [h1] at h2
  simp at h2

/-- C1 (amended): the round-trip law holds on the grammar's round-trippable
core: a trimmed, non-empty, single-line, non-comment, non-continued command,
and an output that is empty or consists of newline-terminated lines, none
equal to `----`, and — when the plain form is chosen — none blank.  Parsing
the serialization reproduces the operation exactly and consumes the whole
text. -/
theorem C1_roundTrip (n : String) (op : Operation) (h : GoodOp op) :
    ∃ j, parseOperation n 0 (toLines (OperationString op)) =
      .ok (some op) ⟨n, [], j, ""⟩ := by
  rw [toLines_OperationString op h]
  obtain ⟨j, hj⟩ := parse_serLines op h n 0 []
  rw [List.append_nil] at hj
  exact ⟨j, hj⟩

theorem C1_roundTrip_witness :
    GoodOp ⟨"glob testdata", "a\n\nb\n"⟩ ∧
      ∃ j, parseOperation "rec" 0
          (toLines (OperationString ⟨"glob testdata", "a\n\nb\n"⟩)) =
        .ok (some ⟨"glob testdata", "a\n\nb\n"⟩) ⟨"rec", [], j, ""⟩ :=
  ⟨by decide, C1_roundTrip "rec" ⟨"glob testdata", "a\n\nb\n"⟩ (by decide)⟩

/-- C2, as stated, is false on the code: the serializer strips all trailing
newlines (Go `strings.TrimRight`), not exactly one.  For output `"a\n\n"`,
stripping one newline leaves `"a\n"`, whose line list contains an empty line,
so the claim requires the escaped form; the code strips both newlines, sees
only the line `a`, and emits the plain form. -/
theorem C2_escapeCondition_counterexample :
    specNeedsEscapeOneStrip "a\n\n" = true ∧
      OperationString ⟨"c", "a\n\n"⟩ = specPlainForm "c" "a\n\n" ∧
      specPlainForm "c" "a\n\n" ≠ specEscapedForm "c" "a\n\n" := by
  decide

/-- C2 (amended): the serializer emits the escaped double-separator form iff
some line of the output, after stripping all trailing newlines, is empty;
otherwise it emits the plain form. -/
theorem C2_escapeCondition (cmd out : String) :
    OperationString ⟨cmd, out⟩ =
      if specNeedsEscapeAllStrip out = true then specEscapedForm cmd out
      else specPlainForm cmd out := by
  have hx : specNeedsEscapeAllStrip out = goEmptyLine out := rfl
  rw [hx]
  by_cases he : goEmptyLine out = true <;>
    by_cases hn : out ≠ "" ∧ endsWithNewline out = false <;>
      simp [OperationString, specPlainForm, specEscapedForm, he, hn,
        String.append_assoc]

/-- C3: inside an escaped output block, a `----` line not immediately followed
by another `----` is folded, together with its successor, into the output
body; only a consecutive pair closes the block, after which the next line
must be blank (or the stream must end); end of stream before a closing pair —
including just after a lone `----` — is the missing-closing-separators
error. -/
theorem C3_escapedAmbiguity :
    (∀ (n : String) (i : Nat) (buf l2 : String) (rest : List String), l2 ≠ "----" →
      escLoop n i buf ("----" :: l2 :: rest) =
        escLoop n (i + 2) (buf ++ "----" ++ "\n" ++ l2 ++ "\n") rest) ∧
    (∀ (n : String) (i : Nat) (buf : String) (rest : List String),
      escLoop n i buf ("----" :: "----" :: "" :: rest) =
        .ok (buf, ⟨n, rest, i + 3, ""⟩)) ∧
    (∀ (n : String) (i : Nat) (buf : String),
      escLoop n i buf ["----", "----"] = .ok (buf, ⟨n, [], i + 2, ""⟩)) ∧
    (∀ (n : String) (i : Nat) (buf t : String) (rest : List String), t ≠ "" →
      escLoop n i buf ("----" :: "----" :: t :: rest) =
        .err (.nonBlankAfterClose (posStr n (i + 3)))) ∧
    (∀ (n : String) (i : Nat) (buf : String),
      escLoop n i buf [] = .err (.missingClosing (posStr n i))) ∧
    (∀ (n : String) (i : Nat) (buf : String),
      escLoop n i buf ["----"] = .err (.missingClosing (posStr n (i + 1)))) :=
  ⟨fun n i buf l2 rest h => escLoop_fold n i buf l2 rest h,
   escLoop_close_blank, escLoop_close_nil,
   fun n i buf t rest h => escLoop_close_nonblank n i buf t rest h,
   escLoop_nil, escLoop_sep_nil⟩

theorem C3_escapedAmbiguity_witness :
    ("x" : String) ≠ "----" ∧
      escLoop "r" 2 "" ("----" :: "x" :: ["----", "----", ""]) =
        escLoop "r" 4 ("" ++ "----" ++ "\n" ++ "x" ++ "\n") ["----", "----", ""] ∧
      ("z" : String) ≠ "" ∧
      escLoop "r" 2 "" ("----" :: "----" :: "z" :: []) =
        .err (.nonBlankAfterClose (posStr "r" 5)) :=
  ⟨by decide, C3_escapedAmbiguity.1 "r" 2 "" "x" ["----", "----", ""] (by decide),
   by decide, C3_escapedAmbiguity.2.2.2.1 "r" 2 "" "z" [] (by decide)⟩

/-- Stepping the operation parser over a well-formed command line followed by
an arbitrary tail: the parser commits to the command, then requires the
separator and an output block. -/
theorem parseOperationF_cmd (n : String) (fuel i : Nat) (cmd : String)
    (hct : goTrimSpace cmd = cmd) (hcne : cmd ≠ "") (hchash : startsWithHash cmd = false)
    (hcbs : endsWithBackslash cmd = false) (TAIL : List String) :
    parseOperationF n (fuel + 1) i (cmd :: TAIL) =
      match parseSeparator n (i + 1) TAIL with
      | (some e, _) => .err e
      | (none, s3) =>
        match parseOutput n s3.line s3.rest with
        | .err e => .err e
        | .ok (out, s4) => .ok (some ⟨cmd, out⟩) s4 := by
  rw [parseOperationF.eq_def]
  simp only [hct, hchash, Bool.false_eq_true, if_false]
  have hjc : joinContinuation (i + 1) cmd TAIL = (cmd, i + 1, TAIL) := by
    cases TAIL with
    | nil => rw [joinContinuation.eq_def]
    | cons a t =>
      rw [joinContinuation.eq_def]
      simp [hcbs]
  rw [hjc]
  rw [parseCommand.eq_def]
  simp only [hct, if_neg hcne]

/-- C8: a well-formed command line followed by anything other than exactly
`----` — or by nothing at all — is a fatal grammar error carrying the scanner
position, never a successful (empty) operation. -/
theorem C8_malformedSeparator (n : String) (i : Nat) (c : String)
    (hct : goTrimSpace c = c) (hcne : c ≠ "") (hchash : startsWithHash c = false)
    (hcbs : endsWithBackslash c = false) :
    parseOperation n i [c] = .err (.expectedSeparator (posStr n (i + 1))) ∧
    ∀ (l : String) (rest : List String), l ≠ "----" →
      parseOperation n i (c :: l :: rest) =
        .err (.expectedSeparatorFound (posStr n (i + 2)) l) := by
  constructor
  · rw [parseOperation, parseOperationF_cmd n _ i c hct hcne hchash hcbs]
    rw [parseSeparator.eq_def]
  · intro l rest hl
    rw [parseOperation, parseOperationF_cmd n _ i c hct hcne hchash hcbs]
    rw [parseSeparator.eq_def]
    simp [hl]

theorem C8_malformedSeparator_witness :
    goTrimSpace "cmd" = "cmd" ∧ ("cmd" : String) ≠ "" ∧
      startsWithHash "cmd" = false ∧ endsWithBackslash "cmd" = false ∧
      parseOperation "t" 0 ["cmd"] = .err (.expectedSeparator (posStr "t" 1)) ∧
      parseOperation "t" 0 ["cmd", "oops", "x"] =
        .err (.expectedSeparatorFound (posStr "t" 2) "oops") :=
  ⟨by decide, by decide, by decide, by decide,
   (C8_malformedSeparator "t" 0 "cmd" (by decide) (by decide) (by decide) (by decide)).1,
   (C8_malformedSeparator "t" 0 "cmd" (by decide) (by decide) (by decide)
     (by decide)).2 "oops" ["x"] (by decide)⟩

/-- Every plain-output run produces the buffer extended by some list of
newline-terminated lines, each non-blank and drawn from the input lines. -/
theorem plainLoop_shape : ∀ (rest : List String) (n : String) (i : Nat)
    (line buf : String), ∃ K, (plainLoop n i line buf rest).1 = buf ++ joinNL K ∧
      ∀ x ∈ K, goTrimSpace x ≠ "" ∧ x ∈ line :: rest := by
  intro rest
  induction rest with
  | nil =>
    intro n i line buf
    by_cases hb : goTrimSpace line = ""
    · refine ⟨[], ?_, by simp⟩
      simp [plainLoop, hb, joinNL, String.append_empty]
    · refine ⟨[line], ?_, ?_⟩
      · simp [plainLoop, hb, joinNL, String.append_empty, String.append_assoc]
      · intro x hx
        rw [List.mem_singleton] at hx
        subst hx
        exact ⟨hb, List.mem_cons_self _ _⟩
  | cons l rest ih =>
    intro n i line buf
    by_cases hb : goTrimSpace line = ""
    · refine ⟨[], ?_, by simp⟩
      simp [plainLoop, hb, joinNL, String.append_empty]
    · obtain ⟨K, hK1, hK2⟩ := ih n (i + 1) l (buf ++ line ++ "\n")
      refine ⟨line :: K, ?_, ?_⟩
      · rw [show plainLoop n i line buf (l :: rest) =
          plainLoop n (i + 1) l (buf ++ line ++ "\n") rest from by
            simp [plainLoop, hb]]
        rw [hK1]
        simp [joinNL, String.append_assoc]
      · intro x hx
        rcases List.mem_cons.mp hx with hx | hx
        · subst hx
          exact ⟨hb, List.mem_cons_self _ _⟩
        · obtain ⟨h1, h2⟩ := hK2 x hx
          exact ⟨h1, List.mem_cons_of_mem _ h2⟩

/-- Every successful escaped-output run produces the buffer extended by some
list of newline-terminated lines. -/
theorem escLoop_shape : ∀ (len : Nat) (rest : List String), rest.length ≤ len →
    ∀ (n : String) (i : Nat) (buf out : String) (sc : Scanner),
      escLoop n i buf rest = .ok (out, sc) → ∃ K, out = buf ++ joinNL K := by
  intro len
  induction len with
  | zero =>
    intro rest hlen n i buf out sc h
    have : rest = [] := List.length_eq_zero.mp (Nat.le_zero.mp hlen)
    subst this
    rw [escLoop_nil] at h
    exact absurd h (by simp)
  | succ len ih =>
    intro rest hlen n i buf out sc h
    cases rest with
    | nil =>
      rw [escLoop_nil] at h
      exact absurd h (by simp)
    | cons x rest2 =>
      by_cases hx : x = "----"
      · subst hx
        cases rest2 with
        | nil =>
          rw [escLoop_sep_nil] at h
          exact absurd h (by simp)
        | cons l2 rest3 =>
          by_cases h2 : l2 = "----"
          · subst h2
            cases rest3 with
            | nil =>
              rw [escLoop_close_nil] at h
              refine ⟨[], ?_⟩
              have := (OutputRes.ok.injEq _ _).mp h
              have hp := Prod.mk.injEq .. ▸ this
              simp at this
              rw [← this.1, joinNL, String.append_empty]
            | cons t rest4 =>
              by_cases ht : t = ""
              · subst ht
                rw [escLoop_close_blank] at h
                refine ⟨[], ?_⟩
                simp at h
                rw [← h.1, joinNL, String.append_empty]
              · rw [escLoop_close_nonblank n i buf t rest4 ht] at h
                exact absurd h (by simp)
          · rw [escLoop_fold n i buf l2 rest3 h2] at h
            have hlen2 : rest3.length ≤ len := by
              simp at hlen
              omega
            obtain ⟨K, hK⟩ := ih rest3 hlen2 n (i + 2)
              (buf ++ "----" ++ "\n" ++ l2 ++ "\n") out sc h
            refine ⟨"----" :: l2 :: K, ?_⟩
            rw [hK]
            simp [joinNL, String.append_assoc]
      · rw [escLoop_cons_ne n i buf x rest2 hx] at h
        have hlen2 : rest2.length ≤ len := by
          simp at hlen
          omega
        obtain ⟨K, hK⟩ := ih rest2 hlen2 n (i + 1) (buf ++ x ++ "\n") out sc h
        refine ⟨x :: K, ?_⟩
        rw [hK]
        simp [joinNL, String.append_assoc]

/-- Every successful `parseOutput` result is a concatenation of
newline-terminated lines. -/
theorem parseOutput_shape (n : String) (i : Nat) (rest : List String)
    (out : String) (sc : Scanner) (h : parseOutput n i rest = .ok (out, sc)) :
    ∃ K, out = joinNL K := by
  cases rest with
  | nil =>
    rw [parseOutput] at h
    obtain ⟨K, hK1, _⟩ := plainLoop_shape [] n i "" ""
    simp at h
    rw [h] at hK1
    rw [String.empty_append] at hK1
    exact ⟨K, hK1⟩
  | cons l rest2 =>
    rw [parseOutput] at h
    by_cases hl : l = "----"
    · rw [if_pos hl] at h
      obtain ⟨K, hK⟩ := escLoop_shape (rest2.length) rest2 (Nat.le_refl _)
        n (i + 1) "" out sc h
      refine ⟨K, ?_⟩
      rw [hK, String.empty_append]
    · rw [if_neg hl] at h
      obtain ⟨K, hK1, _⟩ := plainLoop_shape rest2 n (i + 1) l ""
      simp at h
      rw [h] at hK1
      rw [String.empty_append] at hK1
      exact ⟨K, hK1⟩

/-- Every operation the parser yields has an output that is a concatenation
of newline-terminated lines. -/
theorem parseOperationF_output : ∀ (fuel : Nat) (n : String) (i : Nat)
    (rest : List String) (op : Operation) (sc : Scanner),
    parseOperationF n fuel i rest = .ok (some op) sc →
    ∃ K, op.output = joinNL K := by
  intro fuel
  induction fuel with
  | zero =>
    intro n i rest op sc h
    rw [parseOperationF] at h
    exact absurd h (by simp)
  | succ fuel ih =>
    intro n i rest op sc h
    cases rest with
    | nil =>
      rw [parseOperationF.eq_def] at h
      exact absurd h (by simp)
    | cons l rest2 =>
      rw [parseOperationF.eq_def] at h
      simp only at h
      by_cases hh : startsWithHash (goTrimSpace l) = true
      · rw [if_pos hh] at h
        exact ih n (i + 1) rest2 op sc h
      · rw [if_neg hh] at h
        rcases hjc : joinContinuation (i + 1) (goTrimSpace l) rest2 with ⟨line2, j, rest3⟩
        rw [hjc] at h
        dsimp only at h
        rcases hpc : parseCommand (posStr n j) line2 with e | command
        · rw [hpc] at h
          exact absurd h (by simp)
        · rw [hpc] at h
          dsimp only at h
          by_cases hcmd : command = ""
          · rw [if_pos hcmd] at h
            exact ih n j rest3 op sc h
          · rw [if_neg hcmd] at h
            rcases hps : parseSeparator n j rest3 with ⟨oe, s3⟩
            rw [hps] at h
            cases oe with
            | some e => exact absurd h (by simp)
            | none =>
              dsimp only at h
              rcases hpo : parseOutput n s3.line s3.rest with ⟨⟨out, s4⟩⟩ | e
              · rw [hpo] at h
                simp at h
                obtain ⟨K, hK⟩ := parseOutput_shape n s3.line s3.rest out s4 hpo
                refine ⟨K, ?_⟩
                rw [← h.1]
                exact hK
              · rw [hpo] at h
                exact absurd h (by simp)

/-- C9: every operation the parser yields has an output that is empty or
newline-terminated (each accumulated line gets its own trailing newline); and
a plain (non-escaped) output block — over real scanner lines, which contain
no interior newline — never contains a blank line. -/
theorem C9_outputInvariant :
    (∀ (n : String) (i : Nat) (rest : List String) (op : Operation) (sc : Scanner),
      parseOperation n i rest = .ok (some op) sc →
      op.output = "" ∨ op.output.data.getLast? = some '\n') ∧
    (∀ (n : String) (i : Nat) (line : String) (rest : List String),
      (∀ x ∈ line :: rest, '\n' ∉ x.data) →
      hasBlankLine (plainLoop n i line "" rest).1 = false) := by
  constructor
  · intro n i rest op sc h
    obtain ⟨K, hK⟩ := parseOperationF_output (rest.length + 1) n i rest op sc h
    rw [hK]
    exact joinNL_getLast K
  · intro n i line rest hnl
    obtain ⟨K, hK1, hK2⟩ := plainLoop_shape rest n i line ""
    rw [hK1, String.empty_append]
    have hKnl : ∀ x ∈ K, '\n' ∉ x.data := fun x hx => hnl x (hK2 x hx).2
    rw [hasBlankLine, toLines]
    have hlines : linesOf (joinNL K).data = K.map String.data := by
      have := linesOf_joinNL K hKnl []
      rw [List.append_nil] at this
      have h2 : linesOf ([] : List Char) = [] := rfl
      rw [h2, List.append_nil] at this
      exact this
    rw [hlines, List.map_map]
    have h3 : (String.mk ∘ String.data) = id := funext fun s => by cases s; rfl
    rw [h3, List.map_id]
    rw [List.any_eq_false]
    intro x hx
    have := (hK2 x hx).1
    simp [this]

theorem C9_outputInvariant_witness :
    ((⟨"command", "output\n"⟩ : Operation).output = "" ∨
      (⟨"command", "output\n"⟩ : Operation).output.data.getLast? = some '\n') ∧
    hasBlankLine (plainLoop "t" 3 "output" "" [""]).1 = false :=
  ⟨C9_outputInvariant.1 "t" 0 ["command", "----", "output", ""]
      ⟨"command", "output\n"⟩ ⟨"t", [], 4, ""⟩ (by decide),
   C9_outputInvariant.2 "t" 3 "output" [""] (by decide)⟩

theorem step_recorder {σ : Type} (w : String)
    (f : Operation → String → σ → Option RecErr × σ) (st : σ) :
    step (.recorder w) f st =
      (((false, some .misconfiguredSetToRecord), st), .recorder w) := rfl

theorem step_replayer_none {σ : Type} (sc : Scanner)
    (f : Operation → String → σ → Option RecErr × σ) (st : σ) (sc2 : Scanner)
    (hp : parseOperation sc.name sc.line sc.rest = .ok none sc2) :
    step (.replayer sc) f st = (((false, none), st), .replayer sc2) := by
  simp only [step, hp]

theorem step_replayer_some {σ : Type} (sc : Scanner)
    (f : Operation → String → σ → Option RecErr × σ) (st : σ)
    (op : Operation) (sc2 : Scanner)
    (hp : parseOperation sc.name sc.line sc.rest = .ok (some op) sc2) :
    step (.replayer sc) f st =
      match f op (pos sc2) st with
      | (some ferr, st2) => (((false, some (.wrapped (pos sc2) ferr)), st2), .replayer sc2)
      | (none, st2) => (((true, none), st2), .replayer sc2) := by
  simp only [step, hp]

theorem stepAll_succ (fuel : Nat) (rs : RecorderState) (acc : List Operation) :
    stepAll (fuel + 1) rs acc =
      match step rs (fun op _ a => (none, a ++ [op])) acc with
      | (((found, err), acc2), rs2) =>
        if found = true ∧ err = none then stepAll fuel rs2 acc2
        else (acc2, (found, err), rs2) := rfl

theorem stepAll_run (ops : List Operation) : ∀ (h : ∀ op ∈ ops, GoodOp op)
    (n : String) (i : Nat) (c : String) (acc : List Operation),
    ∃ j, stepAll (ops.length + 1) (.replayer ⟨n, serLinesAll ops, i, c⟩) acc =
      (acc ++ ops, (false, none), .replayer ⟨n, [], j, ""⟩) := by
  induction ops with
  | nil =>
    intro _ n i c acc
    refine ⟨i, ?_⟩
    simp only [serLinesAll, List.length_nil]
    rw [stepAll_succ]
    have hp : parseOperation n i ([] : List String) = .ok none ⟨n, [], i, ""⟩ := rfl
    rw [step_replayer_none ⟨n, [], i, c⟩ _ acc ⟨n, [], i, ""⟩ hp]
    simp
  | cons op t ih =>
    intro h n i c acc
    have hop : GoodOp op := h op (List.mem_cons_self _ _)
    have ht : ∀ x ∈ t, GoodOp x := fun x hx => h x (List.mem_cons_of_mem _ hx)
    obtain ⟨j1, hp⟩ := parse_serLines op hop n i (serLinesAll t)
    obtain ⟨j, hj⟩ := ih ht n j1 "" (acc ++ [op])
    refine ⟨j, ?_⟩
    simp only [serLinesAll, List.length_cons]
    rw [stepAll_succ]
    rw [step_replayer_some ⟨n, serLines op ++ serLinesAll t, i, c⟩ _ acc
      op ⟨n, serLinesAll t, j1, ""⟩ hp]
    simp [hj]

theorem linesOf_serializeAll : ∀ (ops : List Operation), (∀ op ∈ ops, GoodOp op) →
    ∀ extra, linesOf ((serializeAll ops).data ++ extra) =
      (serLinesAll ops).map String.data ++ linesOf extra := by
  intro ops
  induction ops with
  | nil =>
    intro _ extra
    simp [serializeAll, serLinesAll]
  | cons op t ih =>
    intro h extra
    have hop : GoodOp op := h op (List.mem_cons_self _ _)
    have ht : ∀ x ∈ t, GoodOp x := fun x hx => h x (List.mem_cons_of_mem _ hx)
    have h1 : (serializeAll (op :: t)).data ++ extra =
        (OperationString op).data ++ ((serializeAll t).data ++ extra) := by
      simp [serializeAll, String.data_append]
    rw [h1, linesOf_OperationString op hop, ih ht extra]
    simp [serLinesAll]

theorem toLines_serializeAll (ops : List Operation) (h : ∀ op ∈ ops, GoodOp op) :
    toLines (serializeAll ops) = serLinesAll ops := by
  have h1 := linesOf_serializeAll ops h []
  rw [List.append_nil] at h1
  have h2 : linesOf ([] : List Char) = [] := rfl
  rw [h2, List.append_nil] at h1
  rw [toLines, h1, List.map_map]
  have h3 : (String.mk ∘ String.data) = id := funext fun s => by cases s; rfl
  rw [h3, List.map_id]

/-- C4: a recording of N good operations back-to-back replays as exactly N
successful `step` calls handing the original (command, output) pairs to the
visitor in order, after which the next `step` reports found = false with no
error (end of input is not an error). -/
theorem C4_multiOperation (n : String) (ops : List Operation)
    (h : ∀ op ∈ ops, GoodOp op) :
    ∃ j, stepAll (ops.length + 1) (.replayer (mkScanner n (serializeAll ops))) [] =
      (ops, (false, none), .replayer ⟨n, [], j, ""⟩) := by
  rw [mkScanner, toLines_serializeAll ops h]
  obtain ⟨j, hj⟩ := stepAll_run ops h n 0 "" []
  rw [List.nil_append] at hj
  exact ⟨j, hj⟩

theorem C4_multiOperation_witness :
    (∀ op ∈ ([⟨"command", "output\n"⟩, ⟨"command", "output\n\noutput\n"⟩] :
        List Operation), GoodOp op) ∧
    ∃ j, stepAll 3 (.replayer (mkScanner "fuzz"
        (serializeAll [⟨"command", "output\n"⟩, ⟨"command", "output\n\noutput\n"⟩]))) [] =
      ([⟨"command", "output\n"⟩, ⟨"command", "output\n\noutput\n"⟩],
        (false, none), .replayer ⟨"fuzz", [], j, ""⟩) :=
  ⟨by decide, C4_multiOperation "fuzz"
    [⟨"command", "output\n"⟩, ⟨"command", "output\n\noutput\n"⟩] (by decide)⟩

/-- C5: in replay mode, when the next stored operation's command differs from
the supplied one, `Next` fails with the error naming the position and both
commands (the stored one, then the supplied one), and returns the empty
output rather than the stored output. -/
theorem C5_mismatch (sc : Scanner) (cmd : String) (op : Operation) (sc2 : Scanner)
    (f : Unit → String × Option RecErr)
    (hp : parseOperation sc.name sc.line sc.rest = .ok (some op) sc2)
    (hne : op.command ≠ cmd) :
    Next (some (.replayer sc)) cmd f =
      (("", some (.wrapped (pos sc2) (.mismatch (pos sc2) op.command cmd))),
        some (.replayer sc2)) := by
  simp only [Next, recording]
  rw [step_replayer_some sc _ "" op sc2 hp]
  simp [hne]

theorem C5_mismatch_witness :
    Next (some (.replayer ⟨"t", ["command", "----", "output", ""], 0, ""⟩)) "other"
        (fun _ => ("", none)) =
      (("", some (.wrapped (pos ⟨"t", [], 4, ""⟩)
          (.mismatch (pos ⟨"t", [], 4, ""⟩) "command" "other"))),
        some (.replayer ⟨"t", [], 4, ""⟩)) :=
  C5_mismatch ⟨"t", ["command", "----", "output", ""], 0, ""⟩ "other"
    ⟨"command", "output\n"⟩ ⟨"t", [], 4, ""⟩ (fun _ => ("", none))
    (by decide) (by decide)

/-- C6: a nil (unconfigured) Recorder is a transparent passthrough: `Next`
returns exactly the callback's (output, error) pair. -/
theorem C6_passthrough (cmd : String) (f : Unit → String × Option RecErr) :
    Next none cmd f = (f (), none) := by
  rcases hf : f () with ⟨out, err⟩
  simp [Next, hf]

/-- C7: a recording-mode Recorder rejects every `step` call with the
misconfiguration error, returning found = false and leaving the recorder
unchanged; a replay-mode Recorder rejects every `record` call with the
misconfiguration error, leaving the recorder unchanged (nothing written). -/
theorem C7_misconfiguration :
    (∀ (σ : Type) (w : String) (f : Operation → String → σ → Option RecErr × σ)
        (st : σ),
      step (.recorder w) f st =
        (((false, some .misconfiguredSetToRecord), st), .recorder w)) ∧
    (∀ (sc : Scanner) (op : Operation),
      record (.replayer sc) op = (some .misconfiguredNotSetToRecord, .replayer sc)) :=
  ⟨fun _ _ _ _ => rfl, fun _ _ => rfl⟩

/-- C10: in recording mode, when the produce callback fails, `Next` returns
the empty output together with that error and leaves the sink untouched. -/
theorem C10_produceError (w cmd out : String) (e : RecErr)
    (f : Unit → String × Option RecErr) (hf : f () = (out, some e)) :
    Next (some (.recorder w)) cmd f = (("", some e), some (.recorder w)) := by
  simp [Next, recording, hf]

theorem C10_produceError_witness :
    Next (some (.recorder "sink")) "cmd" (fun _ => ("partial", some (.external "boom"))) =
      (("", some (.external "boom")), some (.recorder "sink")) :=
  C10_produceError "sink" "cmd" "partial" (.external "boom")
    (fun _ => ("partial", some (.external "boom"))) rfl

end Recorder
